import Mathlib

/-!
Shallow embedding, in Lean 4, of the core algorithms of the Lucid-Forge
vector-database engine, together with theorems checking the repository's
natural-language specification against the code.

Each definition is translated from the Rust source under `src/`:
* `counter_age`, `LRUCache` — `src/src/models/lru_cache.rs`
* `quantize`, `largest_power_of_4_below`, `calculate_path`, the sparse
  inverted-index trie — `src/src/storage/inverted_index_new_ds.rs`
* `VectorsError.statusCode` — `src/src/api/vectordb/vectors/error.rs`
* `create_dense_vector`, `create_sparse_vector` — `src/src/api/vectordb/vectors/repo.rs`
* `create_collection` controller — `src/src/api/vectordb/collections/controller.rs`
* `insert_node_create_edges`, the tail of `traverse_find_nearest` —
  `src/src/vector_store.rs`

Machine integers are embedded as `Nat` with explicit `% 2^32` where u32
overflow matters; `f32` values that the claims touch are embedded as `ℚ`
(at every concrete input used below the corresponding f32 computation is
exact, so the rational model agrees with the binary32 one).
-/

namespace LucidForge

/-! ## lru_cache.rs: counter_age -/

/-- `u32::MAX` as a natural number. -/
def U32_MAX : Nat := 2 ^ 32 - 1

/-- Embedding of `counter_age` (src/src/models/lru_cache.rs, lines 16–23):
`if global_value >= item_value { global_value - item_value }
 else { (u32::MAX - item_value) + global_value }`.
Both subtractions stay in range for inputs `< 2^32`, so `Nat` subtraction
agrees with the `u32` subtraction. -/
def counter_age (global_value item_value : Nat) : Nat :=
  if global_value ≥ item_value then global_value - item_value
  else (U32_MAX - item_value) + global_value

/-! ## lru_cache.rs: LRUCache with EvictStrategy::Immediate

The cache is embedded with sequential semantics: the `DashMap` becomes an
association list of `(key, value, counter_stamp)` triples (`DashMap` keeps
one entry per key), the `AtomicU32` global counter a `Nat` reduced
`% 2^32`, keys and values `Nat`.  Only the `Immediate` strategy is
embedded (`Probabilistic` draws random numbers).  `DashMap`'s iteration
order is unspecified; the association list fixes one order, which is
irrelevant under the distinct-stamp hypotheses used below. -/

/-- The state of `LRUCache<K, V>` (src/src/models/lru_cache.rs,
lines 70–81) under `EvictStrategy::Immediate`. -/
structure LRUCacheModel where
  entries : List (Nat × Nat × Nat)
  capacity : Nat
  counter : Nat
deriving DecidableEq

/-- Embedding of `LRUCache::new` (src/src/models/lru_cache.rs,
lines 88–95): empty map, counter 0. -/
def LRUCacheModel.new (capacity : Nat) : LRUCacheModel :=
  ⟨[], capacity, 0⟩

/-- Embedding of `LRUCache::get` (src/src/models/lru_cache.rs,
lines 97–105): on a hit, the entry's stamp is set to
`increment_counter()` (which returns the previous global counter and bumps
it, wrapping at 2^32) and the value is returned; on a miss nothing
changes. -/
def LRUCacheModel.get (c : LRUCacheModel) (k : Nat) :
    Option Nat × LRUCacheModel :=
  match c.entries.find? (fun e => e.1 == k) with
  | some e =>
    (some e.2.1,
      { c with
        entries := c.entries.map
          (fun e' => if e'.1 == k then (e'.1, e'.2.1, c.counter) else e'),
        counter := (c.counter + 1) % 2 ^ 32 })
  | none => (none, c)

/-- The `DashMap::insert` step of `LRUCache::insert`: one entry per key, so
an existing key is overwritten in place and a new key is appended. -/
def mapInsert (entries : List (Nat × Nat × Nat)) (k v stamp : Nat) :
    List (Nat × Nat × Nat) :=
  if entries.any (fun e => e.1 == k) then
    entries.map (fun e => if e.1 == k then (k, v, stamp) else e)
  else entries ++ [(k, v, stamp)]

/-- The scan of `LRUCache::evict_lru` (src/src/models/lru_cache.rs,
lines 149–172): fold over the entries tracking `oldest_key` (initially
`None`) and `oldest_counter` (initially `u32::MAX`), updating on a
strictly smaller stamp. -/
def findOldestAux : List (Nat × Nat × Nat) → Option Nat → Nat → Option Nat
  | [], oldest_key, _ => oldest_key
  | e :: rest, oldest_key, oldest_counter =>
    if e.2.2 < oldest_counter then findOldestAux rest (some e.1) e.2.2
    else findOldestAux rest oldest_key oldest_counter

/-- Embedding of `LRUCache::evict_lru` (src/src/models/lru_cache.rs,
lines 149–172): remove the entry whose key the scan selected, if any
(`map.remove(&key)` — keys are unique in the map). -/
def LRUCacheModel.evictLru (c : LRUCacheModel) : LRUCacheModel :=
  match findOldestAux c.entries none U32_MAX with
  | some key => { c with entries := c.entries.eraseP (fun e => e.1 == key) }
  | none => c

/-- Embedding of `LRUCache::evict` (src/src/models/lru_cache.rs,
lines 136–147) for the `Immediate` strategy: evict once when
`map.len() > capacity`. -/
def LRUCacheModel.evict (c : LRUCacheModel) : LRUCacheModel :=
  if c.capacity < c.entries.length then c.evictLru else c

/-- Embedding of `LRUCache::insert` (src/src/models/lru_cache.rs,
lines 107–110): `map.insert(key, (value, increment_counter()))` then
`evict()`. -/
def LRUCacheModel.insert (c : LRUCacheModel) (k v : Nat) : LRUCacheModel :=
  LRUCacheModel.evict
    { c with
      entries := mapInsert c.entries k v c.counter,
      counter := (c.counter + 1) % 2 ^ 32 }

/-! ## inverted_index_new_ds.rs: quantization and path decomposition -/

/-- Rust's `f32::clamp(lo, hi)`: returns `lo` if the value is below `lo`,
`hi` if it is above `hi`, and the value itself otherwise. -/
def rustClamp (x lo hi : ℚ) : ℚ :=
  if x < lo then lo else if x > hi then hi else x

/-- Embedding of `InvertedIndexNewDSNode::quantize`
(src/src/storage/inverted_index_new_ds.rs, lines 91–93):
`((value * 63.0).clamp(0.0, 63.0) as u8).min(63)`.
The `as u8` cast of a float already clamped into `[0, 63]` truncates toward
zero, i.e. takes the floor. -/
def quantize (value : ℚ) : Nat :=
  min (Int.floor (rustClamp (value * 63) 0 63)).toNat 63

/-- The quantization formula as the specification words it:
`clamp(round(v · 63), 0, 63)` converted to an unsigned byte.  Stated only
for comparison with `quantize` (the definition taken from the source). -/
def quantizeSpecFormula (value : ℚ) : Nat :=
  (max 0 (min (round (value * 63)) 63)).toNat

/-- Embedding of `POWERS_OF_4`
(src/src/storage/inverted_index_new_ds.rs, line 17). -/
def POWERS_OF_4 : List Nat := [1, 4, 16, 64, 256, 1024, 4096, 16384]

/-- Embedding of `largest_power_of_4_below`
(src/src/storage/inverted_index_new_ds.rs, lines 21–29):
`POWERS_OF_4.into_iter().enumerate().rev().find(|&(_, pow4)| pow4 <= n)`.
The source `unwrap`s the result (and asserts `n ≠ 0`); the embedding keeps
the `Option` so that the panic case is visible. -/
def largest_power_of_4_below (n : Nat) : Option (Nat × Nat) :=
  POWERS_OF_4.enum.reverse.find? (fun ip => decide (ip.2 ≤ n))

/-- Fuel-driven embedding of the `while remaining > 0` loop of
`calculate_path` (src/src/storage/inverted_index_new_ds.rs, lines 33–44).
Each iteration subtracts a power of 4 that is at least 1, so a fuel budget
equal to the initial `remaining` is sufficient; the `none` branch is
unreachable for `remaining ≥ 1` (the source `unwrap`s there). -/
def calc_path_go : Nat → Nat → List Nat
  | 0, _ => []
  | Nat.succ fuel, remaining =>
    if remaining = 0 then []
    else
      match largest_power_of_4_below remaining with
      | some (child_index, pow_4) => child_index :: calc_path_go fuel (remaining - pow_4)
      | none => []

/-- Embedding of `calculate_path`
(src/src/storage/inverted_index_new_ds.rs, lines 33–44):
`remaining = target_dim_index - current_dim_index`, then greedy
decomposition into powers of 4. -/
def calculate_path (target_dim_index current_dim_index : Nat) : List Nat :=
  calc_path_go (target_dim_index - current_dim_index)
    (target_dim_index - current_dim_index)

/-! ## inverted_index_new_ds.rs: the 4-ary sparse trie

`InvertedIndexNewDSNode` is embedded as an inductive tree.  A posting list
(`IncrementalSerializableGrowableData`, whose definition lives outside
`src/`) is Modelled from the spec: "a posting list is an append-only set
of `vector_id`s"; it becomes a `List Nat` of vector ids.  Lazy loading is
dropped: the cache always materializes, and `LazyItemArray<_, 16>` becomes
a 16-slot `List (Option SparseNode)` whose `checked_insert` CAS loop is
rendered sequentially (concurrent creators converge on a single child, per
the spec). -/

/-- Embedding of `struct InvertedIndexNewDSNode`
(src/src/storage/inverted_index_new_ds.rs, lines 46–52).  Note the data
array has exactly SIXTY-THREE posting lists in the source:
`data: Arc<[IncrementalSerializableGrowableData; 63]>`. -/
inductive SparseNode : Type where
  | mk (dim_index : Nat) (implicit : Bool)
      (data : List (List Nat)) (lazy_children : List (Option SparseNode))

/-- Field accessor for `dim_index`. -/
def SparseNode.dimIndex : SparseNode → Nat
  | .mk d _ _ _ => d

/-- Field accessor for `data`. -/
def SparseNode.nodeData : SparseNode → List (List Nat)
  | .mk _ _ data _ => data

/-- Embedding of `InvertedIndexNewDSNode::new`
(src/src/storage/inverted_index_new_ds.rs, lines 55–63): 63 empty posting
lists (`from_fn` over the 63-element array) and 16 empty child slots. -/
def SparseNode.new (dim_index : Nat) (implicit : Bool) : SparseNode :=
  .mk dim_index implicit (List.replicate 63 []) (List.replicate 16 none)

/-- The bucket write of `InvertedIndexNewDSNode::insert`
(src/src/storage/inverted_index_new_ds.rs, lines 95–103):
`if let Some(growable_data) = data.get_mut(q as usize) { growable_data.insert(id) }`
— when the bucket index is out of range (≥ 63) the write silently does
nothing. -/
def SparseNode.insertQuantized : SparseNode → Nat → Nat → SparseNode
  | .mk d imp data ch, quantized_value, vector_id =>
    match data.get? quantized_value with
    | some growable_data =>
      .mk d imp (data.set quantized_value (growable_data ++ [vector_id])) ch
    | none => .mk d imp data ch

/-- Embedding of `InvertedIndexNewDSNode::insert`
(src/src/storage/inverted_index_new_ds.rs, lines 95–103): quantize the
value, then write the vector id into that bucket. -/
def SparseNode.insertValue (node : SparseNode) (value : ℚ) (vector_id : Nat) :
    SparseNode :=
  node.insertQuantized (quantize value) vector_id

/-- Functional rendering of `find_or_create_node`
(src/src/storage/inverted_index_new_ds.rs, lines 67–89) fused with the
terminal `InvertedIndexNewDSNode::insert`: walk the path, reusing an
existing child (`checked_insert` returning the occupant) or creating
`new(dim_index + POWERS_OF_4[child_index], implicit = true)`, and apply
the bucket write at the terminal node.  The fusion is needed because the
source mutates the terminal node in place through a shared reference. -/
def SparseNode.insertAtPath : SparseNode → List Nat → ℚ → Nat → SparseNode
  | node, [], value, vector_id => node.insertValue value vector_id
  | .mk d imp data ch, child_index :: rest, value, vector_id =>
    let child :=
      match (ch.get? child_index).join with
      | some c => c
      | none => SparseNode.new (d + POWERS_OF_4.getD child_index 0) true
    .mk d imp data
      (ch.set child_index (some (child.insertAtPath rest value vector_id)))

/-- Embedding of `InvertedIndexNewDSNode::get_value`
(src/src/storage/inverted_index_new_ds.rs, lines 114–136): follow the
path through the children (`get(child_index)` then flatten); at the
terminal, scan the buckets in index order and return the first bucket
index whose posting list contains the vector id. -/
def SparseNode.getValue : SparseNode → List Nat → Nat → Option Nat
  | .mk _ _ data _, [], vector_id =>
    data.findIdx? (fun growable_data => growable_data.contains vector_id)
  | .mk _ _ _ ch, child_index :: rest, vector_id =>
    match (ch.get? child_index).join with
    | some c => c.getValue rest vector_id
    | none => none

/-- Embedding of `InvertedIndexSparseAnnNewDS`
(src/src/storage/inverted_index_new_ds.rs, lines 140–199): the root node
has `dim_index = 0`, `implicit = false`. -/
structure InvertedIndexSparseAnnNewDS where
  root : SparseNode

/-- Embedding of `InvertedIndexSparseAnnNewDS::new`
(src/src/storage/inverted_index_new_ds.rs, lines 146–156). -/
def InvertedIndexSparseAnnNewDS.new : InvertedIndexSparseAnnNewDS :=
  ⟨SparseNode.new 0 false⟩

/-- Embedding of `InvertedIndexSparseAnnNewDS::insert`
(src/src/storage/inverted_index_new_ds.rs, lines 179–188):
`calculate_path(dim_index, root.dim_index)`, `find_or_create_node`, then
node-level insert. -/
def InvertedIndexSparseAnnNewDS.insert (idx : InvertedIndexSparseAnnNewDS)
    (dim_index : Nat) (value : ℚ) (vector_id : Nat) :
    InvertedIndexSparseAnnNewDS :=
  ⟨idx.root.insertAtPath (calculate_path dim_index idx.root.dimIndex)
    value vector_id⟩

/-- Embedding of `InvertedIndexSparseAnnNewDS::get`
(src/src/storage/inverted_index_new_ds.rs, lines 172–176) delegating to
`InvertedIndexNewDSNode::get` (lines 107–110). -/
def InvertedIndexSparseAnnNewDS.get (idx : InvertedIndexSparseAnnNewDS)
    (dim_index vector_id : Nat) : Option Nat :=
  idx.root.getValue (calculate_path dim_index idx.root.dimIndex) vector_id

/-- Helper for evaluation: `insertAtPath` with the bucket index already
computed.  `SparseNode.insertAtPath_quantized` proves it agrees with
`insertAtPath`. -/
def SparseNode.insertAtPathQ : SparseNode → List Nat → Nat → Nat → SparseNode
  | node, [], quantized_value, vector_id =>
    node.insertQuantized quantized_value vector_id
  | .mk d imp data ch, child_index :: rest, quantized_value, vector_id =>
    let child :=
      match (ch.get? child_index).join with
      | some c => c
      | none => SparseNode.new (d + POWERS_OF_4.getD child_index 0) true
    .mk d imp data
      (ch.set child_index
        (some (child.insertAtPathQ rest quantized_value vector_id)))

/-! ## vector_store.rs: HNSW edge creation

`insert_node_create_edges` (src/src/vector_store.rs, lines 747–844) is
embedded as a pure function of the data it reads and the lists it
installs.  A `MetricResult::get_value()` is a member of a total order;
it is embedded as `Int` (`f32` comparison outcomes abstracted to a total
order, which is all the sort uses).  A candidate neighbor carries the
validity flag (`LazyItem::Valid { data: Some(_) }`, and a `Ready` prop for
the traverse filter), its vector id, and its current edge list. -/

/-- A `(LazyItem<MergedNode>, MetricResult)` candidate as read by
`insert_node_create_edges` and `traverse_find_nearest`. -/
structure NeighborCand where
  valid : Bool
  id : Nat
  edges : List (Nat × Int)
deriving DecidableEq

/-- The descending sort
`sort_by(|a, b| b.get_value().partial_cmp(&a.get_value()))` used at
src/src/vector_store.rs lines 822–826 and 917. -/
def sortByMetricDesc {α : Type} (metric : α → Int) (l : List α) : List α :=
  l.mergeSort (fun a b => decide (metric b ≤ metric a))

/-- The per-neighbor edge recomputation of `insert_node_create_edges`
(src/src/vector_store.rs, lines 820–828): push `(new node, dist)`, sort by
descending metric, `truncate(20)`. -/
def recomputeNeighborList (old : List (Nat × Int)) (newId : Nat)
    (dist : Int) : List (Nat × Int) :=
  (sortByMetricDesc (fun e => e.2) (old ++ [(newId, dist)])).take 20

/-- Embedding of the graph effect of `insert_node_create_edges`
(src/src/vector_store.rs, lines 747–844).  For each valid candidate in
`nbs`: the neighbor is version-forked, its recomputed edge list installed
(`new_neighbor_neighbors.items.update`, line 834), and one entry is added
to the new node's `neighbours` set (line 837).  The result is the pair
(new node's neighbor list, installed forked edge lists keyed by neighbor
id). -/
def insert_node_create_edges (nbs : List (NeighborCand × Int))
    (newId : Nat) : List (Nat × Int) × List (Nat × List (Nat × Int)) :=
  let valids := nbs.filter (fun nd => nd.1.valid)
  (valids.map (fun nd => (nd.1.id, nd.2)),
    valids.map (fun nd => (nd.1.id, recomputeNeighborList nd.1.edges newId nd.2)))

/-- The `retain` pass of `traverse_find_nearest`
(src/src/vector_store.rs, lines 918–937): keep only valid entries whose id
was not seen before (first occurrence wins). -/
def dedupByIdKeepFirst :
    List (NeighborCand × Int) → List Nat → List (NeighborCand × Int)
  | [], _ => []
  | e :: rest, seen =>
    if e.1.valid && !(seen.contains e.1.id) then
      e :: dedupByIdKeepFirst rest (e.1.id :: seen)
    else dedupByIdKeepFirst rest seen

/-- The final stage of `traverse_find_nearest`
(src/src/vector_store.rs, lines 916–939): sort by descending metric,
de-duplicate by id, `take(5)`. -/
def traverseSelect (cands : List (NeighborCand × Int)) :
    List (NeighborCand × Int) :=
  (dedupByIdKeepFirst (sortByMetricDesc (fun e => e.2) cands) []).take 5

/-- The fallback of `index_embedding` (src/src/vector_store.rs,
lines 593–597): when traversal yields nothing, seed with the entry node. -/
def zOrFallback (z : List (NeighborCand × Int))
    (entry : NeighborCand × Int) : List (NeighborCand × Int) :=
  if z.isEmpty then [entry] else z

/-! ## api/vectordb/vectors/error.rs: the error enum and its HTTP status -/

/-- Embedding of `enum VectorsError`
(src/src/api/vectordb/vectors/error.rs, lines 8–15).  The `WaCustom`
variant is referenced by `repo.rs` (`VectorsError::WaCustom`) but its
declaration and status-code arm are not under `src/`; it is included so the
repo functions can be modelled, with its status code Modelled from the
spec: "500 for storage faults". -/
inductive VectorsError where
  | NotFound
  | FailedToGetAppEnv
  | FailedToCreateVector (msg : String)
  | FailedToUpdateVector (msg : String)
  | FailedToFindSimilarVectors (msg : String)
  | NotImplemented
  | WaCustom (msg : String)
deriving DecidableEq

/-- Embedding of `VectorsError::status_code`
(src/src/api/vectordb/vectors/error.rs, lines 44–53), as the numeric HTTP
status: `BAD_REQUEST` = 400, `INTERNAL_SERVER_ERROR` = 500.  The
`WaCustom` arm is Modelled from the spec (its source arm is not under
`src/`): storage faults map to 500. -/
def VectorsError.statusCode : VectorsError → Nat
  | .NotFound => 400
  | .FailedToGetAppEnv => 500
  | .FailedToCreateVector _ => 400
  | .NotImplemented => 400
  | .FailedToUpdateVector _ => 400
  | .FailedToFindSimilarVectors _ => 400
  | .WaCustom _ => 500

/-! ## api/vectordb/vectors/repo.rs: non-transactional create paths

The repo functions are embedded as pure functions of the results of their
collaborators: the index lookup (`get_dense_index_by_id` /
`get_inverted_index_by_id`) and the upload (`run_upload` /
`run_upload_sparse_vector`), each an `Except` carrying an error message.
The boolean in the result records whether the upload (i.e. the actual
vector insertion) was invoked, so "does not insert the vector" is
expressible. -/

/-- The slice of dense-index state the create path reads:
`current_open_transaction` is an atomic pointer in the source; `none`
models the null pointer. -/
structure DenseIndexState where
  current_open_transaction : Option Nat
deriving DecidableEq

/-- The slice of inverted-index state the sparse create path reads
(`current_open_transaction.is_some()`). -/
structure InvertedIndexState where
  current_open_transaction : Option Nat
deriving DecidableEq

/-- The response DTO of the create-vector paths (`CreateVectorResponseDto`):
an id and the raw values. -/
structure CreateVectorResponseDto where
  id : Nat
  values : List ℚ
deriving DecidableEq

/-- Embedding of `create_dense_vector`
(src/src/api/vectordb/vectors/repo.rs, lines 73–101).  Control flow:
lookup failure → `FailedToCreateVector(e)`; non-null
`current_open_transaction` → `FailedToCreateVector("there is an ongoing
transaction!")` without calling `run_upload`; upload failure →
`WaCustom`; otherwise `Ok` with the echoed id and values.  The second
component records whether `run_upload` was invoked. -/
def create_dense_vector (lookup : Except String DenseIndexState)
    (run_upload : Except String Unit) (vector_id : Nat) (values : List ℚ) :
    Except VectorsError CreateVectorResponseDto × Bool :=
  match lookup with
  | .error e => (.error (.FailedToCreateVector e), false)
  | .ok dense_index =>
    if dense_index.current_open_transaction.isSome then
      (.error (.FailedToCreateVector "there is an ongoing transaction!"), false)
    else
      match run_upload with
      | .error e => (.error (.WaCustom e), true)
      | .ok _ => (.ok ⟨vector_id, values⟩, true)

/-- Embedding of `create_sparse_vector`
(src/src/api/vectordb/vectors/repo.rs, lines 40–69).  Identical gating,
but the `Ok` response is commented out in the source and the function
ends with `Err(VectorsError::NotImplemented)`. -/
def create_sparse_vector (lookup : Except String InvertedIndexState)
    (run_upload_sparse_vector : Except String Unit) :
    Except VectorsError CreateVectorResponseDto × Bool :=
  match lookup with
  | .error e => (.error (.FailedToCreateVector e), false)
  | .ok inverted_index =>
    if inverted_index.current_open_transaction.isSome then
      (.error (.FailedToCreateVector "there is an ongoing transaction!"), false)
    else
      match run_upload_sparse_vector with
      | .error e => (.error (.WaCustom e), true)
      | .ok _ => (.error .NotImplemented, true)

/-! ## api/vectordb/collections/controller.rs: create_collection -/

/-- The slice of the collection record the controller reads
(`collection.database_name`, `collection.quant_dim`). -/
structure Collection where
  database_name : String
  quant_dim : Nat
deriving DecidableEq

/-- The create-collection response DTO (`CreateCollectionDtoResponse`). -/
structure CreateCollectionDtoResponse where
  id : String
  dimensions : Nat
  max_val : ℚ
  min_val : ℚ
  name : String
deriving DecidableEq

/-- Embedding of `create_collection`
(src/src/api/vectordb/collections/controller.rs, lines 11–26):
`lower_bound = dto.min_val`, `upper_bound = dto.max_val`, and the response
is built with `max_val: lower_bound` and `min_val: upper_bound`.  The
service call is abstracted as its `Except` result. -/
def create_collection (min_val max_val : ℚ)
    (service_result : Except String Collection) :
    Except String CreateCollectionDtoResponse :=
  let lower_bound := min_val
  let upper_bound := max_val
  match service_result with
  | .error e => .error e
  | .ok collection =>
    .ok ⟨collection.database_name, collection.quant_dim,
         lower_bound, upper_bound, collection.database_name⟩

/-! ## Theorems for claims C2, C3, C8 -/

/-- C2, counterexample: the claim says `counter_age(g, s) = (g − s) mod 2^32`
including the wraparound case `g < s`, but at `g = 0`, `s = 1` the code
computes `(u32::MAX − 1) + 0 = 4294967294` while `(0 − 1) mod 2^32 =
4294967295`. -/
theorem counter_age_mod_counterexample :
    counter_age 0 1 = 4294967294 ∧
      (((0 : Int) - 1) % 2 ^ 32).toNat = 4294967295 ∧
      counter_age 0 1 ≠ (((0 : Int) - 1) % 2 ^ 32).toNat := by
  refine ⟨by decide, by decide, by decide⟩

/-- C2, amended: for `g, s < 2^32`, `counter_age g s < 2^32`; it equals
`(g − s) mod 2^32` when `g ≥ s`, and `(g − s) mod 2^32 − 1` when `g < s`
(the wraparound branch `(u32::MAX − s) + g` is off by one from the modular
difference). -/
theorem counter_age_amended (g s : Nat) (hg : g < 2 ^ 32) (hs : s < 2 ^ 32) :
    counter_age g s < 2 ^ 32 ∧
      (s ≤ g → (counter_age g s : Int) = ((g : Int) - s) % 2 ^ 32) ∧
      (g < s → (counter_age g s : Int) = ((g : Int) - s) % 2 ^ 32 - 1) := by
  unfold counter_age U32_MAX
  refine ⟨?_, ?_, ?_⟩
  · split <;> omega
  · intro h
    rw [if_pos (by omega)]
    push_cast
    omega
  · intro h
    rw [if_neg (by omega)]
    push_cast
    omega

/-- C2, witness for `counter_age_amended` at `g = 0`, `s = 1`. -/
theorem counter_age_amended_witness :
    (counter_age 0 1 : Int) = ((0 : Int) - 1) % 2 ^ 32 - 1 :=
  (counter_age_amended 0 1 (by decide) (by decide)).2.2 (by decide)

/-- C3, counterexample: the claim says `quantize(v) = clamp(round(v · 63),
0, 63)` as a byte and also `quantize(0.5) = 31`; but the code truncates
(`as u8`) instead of rounding, so at `v = 0.5` the code yields `31` while
the claimed round-based formula yields `32`. -/
theorem quantize_round_counterexample :
    quantize (1 / 2) = 31 ∧ quantizeSpecFormula (1 / 2) = 32 ∧
      quantize (1 / 2) ≠ quantizeSpecFormula (1 / 2) := by
  have h1 : quantize (1 / 2) = 31 := by
    unfold quantize rustClamp
    norm_num
    rfl
  have h2 : quantizeSpecFormula (1 / 2) = 32 := by
    unfold quantizeSpecFormula
    rw [show ((1 : ℚ) / 2 * 63) = 63 / 2 by norm_num, round_eq]
    norm_num
    rfl
  exact ⟨h1, h2, by rw [h1, h2]; decide⟩

/-- C3, amended: `quantize(v)` equals `v · 63` clamped to `[0, 63]` and then
truncated toward zero (floored) as a byte — not rounded; the result never
exceeds 63, and in particular `quantize(0.5) = 31`. -/
theorem quantize_floor_amended :
    (∀ v : ℚ, quantize v = (Int.floor (rustClamp (v * 63) 0 63)).toNat ∧
        quantize v ≤ 63) ∧
      quantize (1 / 2) = 31 := by
  constructor
  · intro v
    have hle : rustClamp (v * 63) 0 63 ≤ 63 := by
      unfold rustClamp
      split
      · norm_num
      · split
        · norm_num
        · linarith [not_lt.mp (by assumption : ¬v * 63 > 63)]
    have hfloor : Int.floor (rustClamp (v * 63) 0 63) ≤ 63 := by
      have := Int.floor_le_floor hle
      simpa using this
    have htn : (Int.floor (rustClamp (v * 63) 0 63)).toNat ≤ 63 := by omega
    constructor
    · unfold quantize
      omega
    · unfold quantize
      omega
  · unfold quantize rustClamp
    norm_num
    rfl

/-- C8: for every `n` with `1 ≤ n < 4 · 16384` (the table bound),
`largest_power_of_4_below n` returns `some (i, p)` with `p = 4^i`,
`p ≤ n` and `n < 4·p`; and the greedy decomposition gives
`calculate_path 21 0 = [2, 1, 0]`. -/
theorem largest_power_of_4_below_spec :
    (∀ n : Nat, 1 ≤ n → n < 65536 →
        ∃ i p, largest_power_of_4_below n = some (i, p) ∧
          p = 4 ^ i ∧ p ≤ n ∧ n < 4 * p) ∧
      calculate_path 21 0 = [2, 1, 0] := by
  constructor
  · intro n h1 h2
    have e : POWERS_OF_4.enum.reverse =
        [(7, 16384), (6, 4096), (5, 1024), (4, 256),
         (3, 64), (2, 16), (1, 4), (0, 1)] := rfl
    unfold largest_power_of_4_below
    rw [e]
    rcases le_or_lt 16384 n with h | h
    · rw [List.find?_cons_of_pos _ (by simpa using h)]
      exact ⟨7, 16384, rfl, by decide, h, by omega⟩
    rw [List.find?_cons_of_neg _ (by simp; omega)]
    rcases le_or_lt 4096 n with h' | h'
    · rw [List.find?_cons_of_pos _ (by simpa using h')]
      exact ⟨6, 4096, rfl, by decide, h', by omega⟩
    rw [List.find?_cons_of_neg _ (by simp; omega)]
    rcases le_or_lt 1024 n with h'' | h''
    · rw [List.find?_cons_of_pos _ (by simpa using h'')]
      exact ⟨5, 1024, rfl, by decide, h'', by omega⟩
    rw [List.find?_cons_of_neg _ (by simp; omega)]
    rcases le_or_lt 256 n with h3 | h3
    · rw [List.find?_cons_of_pos _ (by simpa using h3)]
      exact ⟨4, 256, rfl, by decide, h3, by omega⟩
    rw [List.find?_cons_of_neg _ (by simp; omega)]
    rcases le_or_lt 64 n with h4 | h4
    · rw [List.find?_cons_of_pos _ (by simpa using h4)]
      exact ⟨3, 64, rfl, by decide, h4, by omega⟩
    rw [List.find?_cons_of_neg _ (by simp; omega)]
    rcases le_or_lt 16 n with h5 | h5
    · rw [List.find?_cons_of_pos _ (by simpa using h5)]
      exact ⟨2, 16, rfl, by decide, h5, by omega⟩
    rw [List.find?_cons_of_neg _ (by simp; omega)]
    rcases le_or_lt 4 n with h6 | h6
    · rw [List.find?_cons_of_pos _ (by simpa using h6)]
      exact ⟨1, 4, rfl, by decide, h6, by omega⟩
    rw [List.find?_cons_of_neg _ (by simp; omega)]
    rw [List.find?_cons_of_pos _ (by simpa using h1)]
    exact ⟨0, 1, rfl, by decide, h1, by omega⟩
  · decide

/-- C8, witness for `largest_power_of_4_below_spec` at `n = 21`. -/
theorem largest_power_of_4_below_spec_witness :
    ∃ i p, largest_power_of_4_below 21 = some (i, p) ∧
      p = 4 ^ i ∧ p ≤ 21 ∧ 21 < 4 * p :=
  largest_power_of_4_below_spec.1 21 (by decide) (by decide)

/-! ## Theorems for claim C1 -/

/-- Helper: `insertAtPath` equals `insertAtPathQ` at the quantized value. -/
theorem SparseNode.insertAtPath_quantized (path : List Nat) :
    ∀ (node : SparseNode) (value : ℚ) (vector_id : Nat),
      node.insertAtPath path value vector_id =
        node.insertAtPathQ path (quantize value) vector_id := by
  induction path with
  | nil =>
    intro node value vector_id
    cases node
    rfl
  | cons child_index rest ih =>
    intro node value vector_id
    cases node with
    | mk d imp data ch =>
      simp only [SparseNode.insertAtPath, SparseNode.insertAtPathQ, ih]

/-- C1, evaluation at the failing input: `quantize(1.0) = 63` and `1.0 ≠ 0`,
yet after `insert(dim 5, value 1.0, id 7)` into a fresh sparse index,
`get(5, 7)` returns `none` rather than `some 63`: the node's posting-list
array has only 63 slots (indices 0–62), so the bucket-63 write is silently
dropped (`data.get_mut(63)` is `None`). -/
theorem sparse_insert_bucket63_dropped :
    quantize 1 = 63 ∧ (1 : ℚ) ≠ 0 ∧
      (InvertedIndexSparseAnnNewDS.new.insert 5 1 7).get 5 7 = none ∧
      InvertedIndexSparseAnnNewDS.new.root.nodeData.length = 63 := by
  have hq : quantize 1 = 63 := by
    unfold quantize rustClamp
    norm_num
    rfl
  refine ⟨hq, by norm_num, ?_, by decide⟩
  simp only [InvertedIndexSparseAnnNewDS.insert, InvertedIndexSparseAnnNewDS.get,
    SparseNode.insertAtPath_quantized, hq]
  decide

/-! ## Theorems for claims C4, C5, C9, C10 -/

/-- C4, counterexample: the claim says the `NotFound` variant maps to HTTP
404 and `NotImplemented` to 501; the code maps both to `BAD_REQUEST`
(400). -/
theorem vectors_error_status_counterexample :
    VectorsError.statusCode .NotFound ≠ 404 ∧
      VectorsError.statusCode .NotImplemented ≠ 501 := by
  decide

/-- C4, amended: `VectorsError::status_code` maps the `NotFound` variant to
400 and the `NotImplemented` variant to 400 (not 404 and 501 as the
spec's error envelope prescribes). -/
theorem vectors_error_status_amended :
    VectorsError.statusCode .NotFound = 400 ∧
      VectorsError.statusCode .NotImplemented = 400 := by
  decide

/-- C5: if the dense index's `current_open_transaction` slot is occupied,
`create_dense_vector` fails with
`FailedToCreateVector("there is an ongoing transaction!")` and does not
invoke `run_upload` (the insertion), for every upload behaviour, id and
values. -/
theorem create_dense_vector_ongoing_transaction
    (dense_index : DenseIndexState) (run_upload : Except String Unit)
    (vector_id : Nat) (values : List ℚ)
    (h : dense_index.current_open_transaction.isSome) :
    create_dense_vector (.ok dense_index) run_upload vector_id values =
      (.error (.FailedToCreateVector "there is an ongoing transaction!"),
        false) := by
  simp [create_dense_vector, h]

/-- C5, witness for `create_dense_vector_ongoing_transaction` with an open
transaction slot `some 0`. -/
theorem create_dense_vector_ongoing_transaction_witness :
    create_dense_vector (.ok ⟨some 0⟩) (.ok ()) 1 [] =
      (.error (.FailedToCreateVector "there is an ongoing transaction!"),
        false) :=
  create_dense_vector_ongoing_transaction ⟨some 0⟩ (.ok ()) 1 [] rfl

/-- C9: `create_sparse_vector` never returns `Ok`; and when the inverted
index has no open transaction and the upload succeeds, the vector IS
inserted via `run_upload_sparse_vector` (flag `true`) yet the result is
`Err(NotImplemented)`. -/
theorem create_sparse_vector_never_ok :
    (∀ (lookup : Except String InvertedIndexState)
        (upload : Except String Unit) (r : CreateVectorResponseDto),
        (create_sparse_vector lookup upload).1 ≠ .ok r) ∧
      (∀ inverted_index : InvertedIndexState,
        inverted_index.current_open_transaction = none →
        create_sparse_vector (.ok inverted_index) (.ok ()) =
          (.error .NotImplemented, true)) := by
  constructor
  · intro lookup upload r
    cases lookup with
    | error e => simp [create_sparse_vector]
    | ok idx =>
      cases upload with
      | error e =>
        simp only [create_sparse_vector]
        split <;> simp
      | ok u =>
        simp only [create_sparse_vector]
        split <;> simp
  · intro inverted_index h
    simp [create_sparse_vector, h]

/-- C9, witness for `create_sparse_vector_never_ok` at a concrete closed
transaction slot. -/
theorem create_sparse_vector_never_ok_witness :
    (create_sparse_vector (.ok ⟨none⟩) (.ok ())).1 ≠ .ok ⟨1, []⟩ ∧
      create_sparse_vector (.ok ⟨none⟩) (.ok ()) =
        (.error .NotImplemented, true) :=
  ⟨create_sparse_vector_never_ok.1 (.ok ⟨none⟩) (.ok ()) ⟨1, []⟩,
    create_sparse_vector_never_ok.2 ⟨none⟩ rfl⟩

/-- C10: every successful create-collection response echoes the request's
bounds swapped: `max_val` is set from the request's `min_val` and
`min_val` from the request's `max_val`. -/
theorem create_collection_swaps_bounds
    (min_val max_val : ℚ) (service_result : Except String Collection)
    (resp : CreateCollectionDtoResponse)
    (h : create_collection min_val max_val service_result = .ok resp) :
    resp.max_val = min_val ∧ resp.min_val = max_val := by
  unfold create_collection at h
  match hs : service_result with
  | .error e => simp at h
  | .ok collection =>
    simp at h
    subst h
    exact ⟨rfl, rfl⟩

/-- C10, witness for `create_collection_swaps_bounds` at a concrete
request with `min_val = 0`, `max_val = 1`. -/
theorem create_collection_swaps_bounds_witness :
    (⟨"c", 3, 0, 1, "c"⟩ : CreateCollectionDtoResponse).max_val = 0 ∧
      (⟨"c", 3, 0, 1, "c"⟩ : CreateCollectionDtoResponse).min_val = 1 :=
  create_collection_swaps_bounds 0 1 (.ok ⟨"c", 3⟩) ⟨"c", 3, 0, 1, "c"⟩ rfl

/-! ## Theorems for claim C7 -/

/-- Helper: if every entry's stamp is at least the running minimum, the
`evict_lru` scan keeps its accumulator. -/
theorem findOldestAux_of_ge (l : List (Nat × Nat × Nat)) :
    ∀ (oldest_key : Option Nat) (oldest_counter : Nat),
      (∀ e ∈ l, oldest_counter ≤ e.2.2) →
      findOldestAux l oldest_key oldest_counter = oldest_key := by
  induction l with
  | nil => intro _ _ _; rfl
  | cons f rest ih =>
    intro oldest_key oldest_counter h
    have hf : oldest_counter ≤ f.2.2 := h f (List.mem_cons_self f rest)
    simp only [findOldestAux, if_neg (Nat.not_lt.mpr hf)]
    exact ih _ _ fun e he => h e (List.mem_cons_of_mem f he)

/-- Helper: the `evict_lru` scan returns the key of the entry whose stamp is
strictly below the running minimum and strictly below every other entry's
stamp. -/
theorem findOldestAux_found (l : List (Nat × Nat × Nat)) :
    ∀ (oldest_key : Option Nat) (oldest_counter : Nat)
      (e : Nat × Nat × Nat), e ∈ l → e.2.2 < oldest_counter →
      (∀ e' ∈ l, e' ≠ e → e.2.2 < e'.2.2) →
      findOldestAux l oldest_key oldest_counter = some e.1 := by
  induction l with
  | nil => intro _ _ e he; exact absurd he (List.not_mem_nil e)
  | cons f rest ih =>
    intro oldest_key oldest_counter e he hlt hmin
    by_cases hfe : f = e
    · subst hfe
      simp only [findOldestAux, if_pos hlt]
      refine findOldestAux_of_ge rest _ _ fun e' he' => ?_
      by_cases h' : e' = f
      · subst h'; exact le_refl _
      · exact le_of_lt (hmin e' (List.mem_cons_of_mem f he') h')
    · have herest : e ∈ rest := by
        rcases List.mem_cons.mp he with h | h
        · exact absurd h.symm hfe
        · exact h
      have hef : e.2.2 < f.2.2 :=
        hmin f (List.mem_cons_self f rest) hfe
      by_cases hf : f.2.2 < oldest_counter
      · simp only [findOldestAux, if_pos hf]
        exact ih _ _ e herest hef
          fun e' he' hne => hmin e' (List.mem_cons_of_mem f he') hne
      · simp only [findOldestAux, if_neg hf]
        exact ih _ _ e herest hlt
          fun e' he' hne => hmin e' (List.mem_cons_of_mem f he') hne

/-- Helper: a nonempty entry list has an entry of minimal stamp. -/
theorem exists_min_stamp (l : List (Nat × Nat × Nat)) (h : l ≠ []) :
    ∃ e ∈ l, ∀ e' ∈ l, e.2.2 ≤ e'.2.2 := by
  induction l with
  | nil => exact absurd rfl h
  | cons f rest ih =>
    rcases eq_or_ne rest [] with hr | hr
    · subst hr
      exact ⟨f, List.mem_cons_self f [], by
        intro e' he'
        rcases List.mem_cons.mp he' with h' | h'
        · subst h'; exact le_refl _
        · exact absurd h' (List.not_mem_nil e')⟩
    · obtain ⟨m, hm, hmin⟩ := ih hr
      rcases le_or_lt f.2.2 m.2.2 with hle | hlt
      · refine ⟨f, List.mem_cons_self f rest, fun e' he' => ?_⟩
        rcases List.mem_cons.mp he' with h' | h'
        · subst h'; exact le_refl _
        · exact le_trans (le_trans hle (le_refl _)) (hmin e' h')
      · refine ⟨m, List.mem_cons_of_mem f hm, fun e' he' => ?_⟩
        rcases List.mem_cons.mp he' with h' | h'
        · subst h'; exact le_of_lt hlt
        · exact hmin e' h'

/-- C7: with `EvictStrategy::Immediate`, (1) an insert that leaves the map
over capacity removes exactly the entry with the strictly smallest stamp
(stamps assumed pairwise distinct, as produced by the sequential counter);
and (2) with capacity 2, after `insert k1 v1; insert k2 v2; get k1;
insert k3 v3` with distinct keys, the map holds exactly `{k1, k3}` and
`get k2` returns `None`. -/
theorem lru_immediate_evicts_min_stamp :
    (∀ (c : LRUCacheModel) (k v : Nat),
      ((mapInsert c.entries k v c.counter).map (fun e => e.2.2)).Nodup →
      c.capacity < (mapInsert c.entries k v c.counter).length →
      (∃ e ∈ mapInsert c.entries k v c.counter, e.2.2 < U32_MAX) →
      ∃ e ∈ mapInsert c.entries k v c.counter,
        (∀ e' ∈ mapInsert c.entries k v c.counter, e' ≠ e → e.2.2 < e'.2.2) ∧
        (c.insert k v).entries =
          (mapInsert c.entries k v c.counter).eraseP (fun x => x.1 == e.1)) ∧
    (∀ k1 k2 k3 v1 v2 v3 : Nat, k1 ≠ k2 → k1 ≠ k3 → k2 ≠ k3 →
      (((((LRUCacheModel.new 2).insert k1 v1).insert k2 v2).get
          k1).2.insert k3 v3).entries.map (fun e => e.1) = [k1, k3] ∧
      ((((((LRUCacheModel.new 2).insert k1 v1).insert k2 v2).get
          k1).2.insert k3 v3).get k2).1 = none) := by
  constructor
  · intro c k v hnodup hcap hex
    set m := mapInsert c.entries k v c.counter with hm
    have hne : m ≠ [] := by
      intro h
      rw [h] at hcap
      simp at hcap
    obtain ⟨e, hemem, hmin⟩ := exists_min_stamp m hne
    have hstrict : ∀ e' ∈ m, e' ≠ e → e.2.2 < e'.2.2 := by
      intro e' he' hne'
      rcases lt_or_eq_of_le (hmin e' he') with h | h
      · exact h
      · exact absurd (List.inj_on_of_nodup_map hnodup he' hemem h.symm) hne'
    have hltmax : e.2.2 < U32_MAX := by
      obtain ⟨w, hw, hwlt⟩ := hex
      exact lt_of_le_of_lt (hmin w hw) hwlt
    refine ⟨e, hemem, hstrict, ?_⟩
    have hfound : findOldestAux m none U32_MAX = some e.1 :=
      findOldestAux_found m none U32_MAX e hemem hltmax hstrict
    simp only [LRUCacheModel.insert, LRUCacheModel.evict, ← hm]
    rw [if_pos hcap]
    simp only [LRUCacheModel.evictLru, hfound]
  · intro k1 k2 k3 v1 v2 v3 h12 h13 h23
    have b12 : (k1 == k2) = false := beq_eq_false_iff_ne.mpr h12
    have b21 : (k2 == k1) = false := beq_eq_false_iff_ne.mpr (Ne.symm h12)
    have b13 : (k1 == k3) = false := beq_eq_false_iff_ne.mpr h13
    have b31 : (k3 == k1) = false := beq_eq_false_iff_ne.mpr (Ne.symm h13)
    have b23 : (k2 == k3) = false := beq_eq_false_iff_ne.mpr h23
    have b32 : (k3 == k2) = false := beq_eq_false_iff_ne.mpr (Ne.symm h23)
    have e1 : (LRUCacheModel.new 2).insert k1 v1 = ⟨[(k1, v1, 0)], 2, 1⟩ := by
      norm_num [LRUCacheModel.new, LRUCacheModel.insert, LRUCacheModel.evict,
        mapInsert]
    have e2 : (⟨[(k1, v1, 0)], 2, 1⟩ : LRUCacheModel).insert k2 v2 =
        ⟨[(k1, v1, 0), (k2, v2, 1)], 2, 2⟩ := by
      norm_num [LRUCacheModel.insert, LRUCacheModel.evict, mapInsert, b12]
    have e3 : (⟨[(k1, v1, 0), (k2, v2, 1)], 2, 2⟩ : LRUCacheModel).get k1 =
        (some v1, ⟨[(k1, v1, 2), (k2, v2, 1)], 2, 3⟩) := by
      norm_num [LRUCacheModel.get, List.find?, b21, Ne.symm h12]
    have e4 : (⟨[(k1, v1, 2), (k2, v2, 1)], 2, 3⟩ : LRUCacheModel).insert
        k3 v3 = ⟨[(k1, v1, 2), (k3, v3, 3)], 2, 4⟩ := by
      norm_num [LRUCacheModel.insert, LRUCacheModel.evict,
        LRUCacheModel.evictLru, mapInsert, findOldestAux, U32_MAX,
        List.eraseP, b13, b23, b12, b21]
    rw [e1, e2, e3]
    simp only [e4]
    constructor
    · rfl
    · norm_num [LRUCacheModel.get, List.find?, b12, b32]

/-- C7, witness for `lru_immediate_evicts_min_stamp`: part 1 at a concrete
over-capacity cache, part 2 at keys 1, 2, 3. -/
theorem lru_immediate_evicts_min_stamp_witness :
    (∃ e ∈ mapInsert [(1, 10, 5), (2, 20, 3)] 7 9 6,
      (∀ e' ∈ mapInsert [(1, 10, 5), (2, 20, 3)] 7 9 6,
        e' ≠ e → e.2.2 < e'.2.2) ∧
      ((⟨[(1, 10, 5), (2, 20, 3)], 1, 6⟩ : LRUCacheModel).insert 7 9).entries =
        (mapInsert [(1, 10, 5), (2, 20, 3)] 7 9 6).eraseP
          (fun x => x.1 == e.1)) ∧
    ((((((LRUCacheModel.new 2).insert 1 10).insert 2 20).get
        1).2.insert 3 30).entries.map (fun e => e.1) = [1, 3] ∧
      (((((((LRUCacheModel.new 2).insert 1 10).insert 2 20).get
        1).2.insert 3 30)).get 2).1 = none) :=
  ⟨lru_immediate_evicts_min_stamp.1 ⟨[(1, 10, 5), (2, 20, 3)], 1, 6⟩ 7 9
      (by decide) (by decide) (by decide),
    lru_immediate_evicts_min_stamp.2 1 2 3 10 20 30
      (by decide) (by decide) (by decide)⟩

/-! ## Theorems for claim C6 -/

/-- C6: after an insert, (1) every version-forked neighbor's installed edge
list is sorted by descending metric and has at most 20 entries, and (2)
the newly created node acquires at most 20 neighbors (its candidate set is
the traversal result — de-duplicated and truncated to 5 — or the entry
fallback, so at most 5 ≤ 20 entries). -/
theorem hnsw_neighbor_lists_at_most_20 :
    (∀ (nbs : List (NeighborCand × Int)) (newId : Nat),
      ∀ u ∈ (insert_node_create_edges nbs newId).2,
        u.2.length ≤ 20 ∧
          List.Pairwise (fun a b : Nat × Int => b.2 ≤ a.2) u.2) ∧
    (∀ (cands : List (NeighborCand × Int)) (entry : NeighborCand × Int)
        (newId : Nat),
      (insert_node_create_edges (zOrFallback (traverseSelect cands) entry)
          newId).1.length ≤ 20) := by
  constructor
  · intro nbs newId u hu
    simp only [insert_node_create_edges, List.mem_map] at hu
    obtain ⟨nd, _, rfl⟩ := hu
    constructor
    · simp [recomputeNeighborList]
    · have hsorted :
          List.Pairwise
            (fun a b : Nat × Int => decide (b.2 ≤ a.2) = true)
            (sortByMetricDesc (fun e => e.2)
              (nd.1.edges ++ [(newId, nd.2)])) := by
        refine List.sorted_mergeSort ?_ ?_ _
        · intro a b c hab hbc
          simp only [decide_eq_true_eq] at hab hbc ⊢
          exact le_trans hbc hab
        · intro a b
          simp only [Bool.or_eq_true, decide_eq_true_eq]
          exact le_total b.2 a.2
      exact (hsorted.take).imp fun h => of_decide_eq_true h
  · intro cands entry newId
    have hz : (zOrFallback (traverseSelect cands) entry).length ≤ 5 := by
      unfold zOrFallback
      split
      · simp
      · simp [traverseSelect]
    calc (insert_node_create_edges (zOrFallback (traverseSelect cands)
            entry) newId).1.length
        = ((zOrFallback (traverseSelect cands) entry).filter
            (fun nd => nd.1.valid)).length := by
          simp [insert_node_create_edges]
      _ ≤ (zOrFallback (traverseSelect cands) entry).length :=
          List.length_filter_le _ _
      _ ≤ 20 := le_trans hz (by omega)

/-- C6, witness for `hnsw_neighbor_lists_at_most_20` at a single valid
candidate with empty edge list. -/
theorem hnsw_neighbor_lists_at_most_20_witness :
    (2, recomputeNeighborList [] 1 0).2.length ≤ 20 ∧
      List.Pairwise (fun a b : Nat × Int => b.2 ≤ a.2)
        (2, recomputeNeighborList [] 1 0).2 :=
  hnsw_neighbor_lists_at_most_20.1 [(⟨true, 2, []⟩, 0)] 1
    (2, recomputeNeighborList [] 1 0)
    (by simp [insert_node_create_edges, List.filter, List.map])

end LucidForge
